import Mathlib

/-!
Shallow embedding of the ngl_resum example notebooks
(resummator_dipole.ipynb and resummator_lhe.ipynb) together with the
parts of the collaborating ngl_resum library surface that the notebooks
call and whose source is not in the repository snapshot; those parts are
modelled from the design specification and are marked as such in their
doc comments.
-/

noncomputable section

open Classical

namespace NglResum

/-- Modelled from the spec: the immutable Lorentz four-vector of the
ngl_resum library (the library source is not under src); four real
components (energy, px, py, pz). -/
structure FourVector where
  e : ℝ
  px : ℝ
  py : ℝ
  pz : ℝ

/-- Modelled from the spec: componentwise vector sum, written with the
overloaded plus sign in the notebooks. -/
instance : Add FourVector :=
  ⟨fun a b => ⟨a.e + b.e, a.px + b.px, a.py + b.py, a.pz + b.pz⟩⟩

/-- Modelled from the spec: the Minkowski product, written as the
overloaded product of two four-vectors in the notebooks; its square root
on a vector with itself gives the invariant mass. -/
def minkowski (a b : FourVector) : ℝ :=
  a.e * b.e - a.px * b.px - a.py * b.py - a.pz * b.pz

/-- Modelled from the spec: transverse momentum of a four-vector. -/
def pT (v : FourVector) : ℝ := Real.sqrt (v.px ^ 2 + v.py ^ 2)

/-- Modelled from the spec: transverse energy of a four-vector, the
transverse projection sqrt of (invariant mass squared plus transverse
momentum squared); it coincides with the transverse momentum on
light-like vectors. -/
def eT (v : FourVector) : ℝ := Real.sqrt (minkowski v v + pT v ^ 2)

/-- Modelled from the spec: rapidity, one half the log of
(e + pz) / (e - pz), valued in the extended reals so that the
light-like degenerate cases (e = pz or e = -pz), which the
floating-point code maps to plus or minus infinity, are represented
faithfully. -/
def rap (v : FourVector) : EReal :=
  if v.e - v.pz = 0 then ⊤
  else if v.e + v.pz = 0 then ⊥
  else (((1 / 2) * Real.log ((v.e + v.pz) / (v.e - v.pz)) : ℝ) : EReal)

/-- Absolute value of the rapidity, the quantity compared against the
rapidity cut constants in the notebooks. -/
def absRap (v : FourVector) : EReal := max (rap v) (-rap v)

/-- Real-valued rapidity used inside angular distances; every use in
the claims is at vectors whose rapidity is finite. -/
def realRap (v : FourVector) : ℝ := (rap v).toReal

/-- Modelled from the spec: azimuthal angle of a four-vector in the
transverse plane. -/
def phi (v : FourVector) : ℝ := Complex.arg ⟨v.px, v.py⟩

/-- Azimuthal separation wrapped into the interval from 0 to pi. -/
def deltaPhi (a b : FourVector) : ℝ :=
  if |phi a - phi b| ≤ Real.pi then |phi a - phi b|
  else 2 * Real.pi - |phi a - phi b|

/-- Modelled from the spec: angular-separation-squared, delta-rapidity
squared plus delta-azimuth squared. -/
def R2 (a b : FourVector) : ℝ :=
  (realRap a - realRap b) ^ 2 + deltaPhi a b ^ 2

/-- The zero four-vector, used as the out-of-range default of list
lookups in the embedding. -/
def zeroFV : FourVector := ⟨0, 0, 0, 0⟩

/-- Modelled from the spec: the Event data handed over by the external
event-source collaborator, as the lhe notebook reads it back from
ngl.Event fields: classified particle four-vector lists keyed by role
(None when the role is absent from the event) plus the event weight.
The construction of these fields by the ngl_resum library is not under
src. -/
structure Event where
  weight : ℝ
  intermediateTop : Option (List FourVector)
  outgoingBottom : Option (List FourVector)
  outgoingElectron : Option (List FourVector)
  outgoingENeutrino : Option (List FourVector)
  outgoingMuon : Option (List FourVector)
  outgoingMNeutrino : Option (List FourVector)

/-- The list momentaLeptonsOut built by validEvent in
resummator_lhe.ipynb: the outgoing electrons followed by the outgoing
muons. -/
def momentaLeptonsOut (ev : Event) : List FourVector :=
  ev.outgoingElectron.getD [] ++ ev.outgoingMuon.getD []

/-- The list momentaNeutrinoOut built by validEvent in
resummator_lhe.ipynb: electron neutrinos are collected only when the
electron list is present, muon neutrinos only when the muon list is
present. -/
def momentaNeutrinoOut (ev : Event) : List FourVector :=
  (if ev.outgoingElectron.isSome then ev.outgoingENeutrino.getD [] else []) ++
    (if ev.outgoingMuon.isSome then ev.outgoingMNeutrino.getD [] else [])

/-- The electronmuonevent flag of validEvent in resummator_lhe.ipynb:
true when both an electron list and a muon list are present. -/
def electronMuonEvent (ev : Event) : Bool :=
  ev.outgoingElectron.isSome && ev.outgoingMuon.isSome

/-- The dilepton invariant mass computed by validEvent in
resummator_lhe.ipynb from the first two collected leptons. -/
def dileptonMass (ev : Event) : ℝ :=
  Real.sqrt (minkowski
    ((momentaLeptonsOut ev).getD 0 zeroFV + (momentaLeptonsOut ev).getD 1 zeroFV)
    ((momentaLeptonsOut ev).getD 0 zeroFV + (momentaLeptonsOut ev).getD 1 zeroFV))

/-- The missing momentum (sum of the two collected neutrinos) computed
by validEvent in resummator_lhe.ipynb. -/
def missingMomentum (ev : Event) : FourVector :=
  (momentaNeutrinoOut ev).getD 0 zeroFV + (momentaNeutrinoOut ev).getD 1 zeroFV

/-- The validEvent check of resummator_lhe.ipynb, written as the
conjunction of the conditions whose failure triggers the early returns
of False; each early return of the Python function corresponds to the
negation of one conjunct, so the function returns True exactly when
this proposition holds. -/
def validEvent (ev : Event) : Prop :=
  ev.intermediateTop.isSome = true ∧
  ev.outgoingBottom.isSome = true ∧
  (ev.outgoingElectron.isSome = true ∨ ev.outgoingMuon.isSome = true) ∧
  (ev.intermediateTop.getD []).length = 2 ∧
  (ev.outgoingBottom.getD []).length = 2 ∧
  (∀ i ∈ ev.outgoingElectron.getD [], 25 ≤ eT i ∧ absRap i ≤ ((2.47 : ℝ) : EReal)) ∧
  (∀ i ∈ ev.outgoingMuon.getD [], 20 ≤ pT i ∧ absRap i ≤ ((2.5 : ℝ) : EReal)) ∧
  (momentaLeptonsOut ev).length = 2 ∧
  (momentaNeutrinoOut ev).length = 2 ∧
  (if electronMuonEvent ev then
      130 ≤ pT ((momentaLeptonsOut ev).getD 0 zeroFV) +
        pT ((momentaLeptonsOut ev).getD 1 zeroFV) +
        pT ((ev.outgoingBottom.getD []).getD 0 zeroFV) +
        pT ((ev.outgoingBottom.getD []).getD 1 zeroFV)
    else
      40 ≤ eT (missingMomentum ev) ∧ 15 ≤ dileptonMass ev ∧
        10 ≤ |dileptonMass ev - 91|) ∧
  (∀ i ∈ ev.outgoingBottom.getD [], 25 ≤ pT i ∧ absRap i ≤ ((2.4 : ℝ) : EReal) ∧
    ∀ j ∈ momentaLeptonsOut ev, (0.4 : ℝ) ^ 2 ≤ R2 i j)

/-- Modelled from the spec: the Histogram accumulator of the ngl_resum
library (its source is not under src): a fixed number of bins over the
evolution variable, a flag errorHistCalc for per-bin variance tracking,
the accumulated bin values and the accumulated sums of squares. -/
structure Hist where
  nbins : ℕ
  tmax : ℝ
  errorHistCalc : Bool
  bins : List ℝ
  errs : List ℝ

/-- Modelled from the spec: histogram merge, the element-wise sum of
two histograms of identical shape, written with the overloaded
plus-equals sign in the lhe notebook event loop. -/
def histMerge (a b : Hist) : Hist :=
  { a with
    bins := List.zipWith (fun x y => x + y) a.bins b.bins
    errs := List.zipWith (fun x y => x + y) a.errs b.errs }

/-- Modelled from the spec: scaling a histogram by one over n, written
with the overloaded divide-equals sign in the lhe notebook; it is
rejected with a configuration error when error tracking is enabled,
and otherwise divides every bin value by n. -/
def histDiv (h : Hist) (n : ℝ) : Except String Hist :=
  if h.errorHistCalc then
    Except.error "Hist: scaling is forbidden on an error-tracking histogram"
  else
    Except.ok { h with bins := h.bins.map (fun x => x / n) }

/-- Modelled from the spec: the result surface of one Shower run, the
resummed histogram resLL plus the two loop-coefficient accumulators. -/
structure ShowerOut where
  resLL : Hist
  ngl1Loop : ℝ
  ngl2Loop : ℝ

/-- Modelled from the spec: one shower realization's contribution, its
per-bin indicator values and its one- and two-loop contributions. -/
structure ShowerRealization where
  bins : List ℝ
  c1 : ℝ
  c2 : ℝ

/-- Modelled from the spec: the accumulation performed by
Shower.shower over its nsh realizations (the Shower source is not
under src): realizations are merged by raw element-wise sums and the
loop coefficients by raw scalar sums, with no averaging. -/
def showerAccumOut (nb : ℕ) (tm : ℝ) (rs : List ShowerRealization) : ShowerOut :=
  { resLL :=
      { nbins := nb
        tmax := tm
        errorHistCalc := true
        bins := rs.foldl (fun acc r => List.zipWith (fun x y => x + y) acc r.bins)
          (List.replicate nb 0)
        errs := rs.foldl (fun acc r => List.zipWith (fun x y => x + y * y) acc r.bins)
          (List.replicate nb 0) }
    ngl1Loop := (rs.map ShowerRealization.c1).sum
    ngl2Loop := (rs.map ShowerRealization.c2).sum }

/-- Modelled from the spec: the OutsideRegion predicate object; its
outside slot starts unconfigured (none) and is rebound by the caller,
as both notebooks do with a bound method assignment. -/
structure OutsideRegion where
  outside : Option (FourVector → Prop) := none

/-- Modelled from the spec: invoking the outside slot; the default
unconfigured stub signals a not-configured error, and a bound concrete
predicate is evaluated on the queried four-vector. -/
def OutsideRegion.invoke (r : OutsideRegion) (v : FourVector) : Except String Prop :=
  match r.outside with
  | none => Except.error "OutsideRegion: outside not configured"
  | some f => Except.ok (f v)

/-- The outside predicate bound in resummator_dipole.ipynb: absolute
rapidity below 0.8 and at least 0.0. -/
def outsideDipole (v : FourVector) : Prop :=
  absRap v < ((0.8 : ℝ) : EReal) ∧ ((0.0 : ℝ) : EReal) ≤ absRap v

/-- The light-like four-vector along the y-axis from
resummator_dipole.ipynb, recorded there as outside. -/
def fvOut : FourVector := ⟨1, 0, 1, 0⟩

/-- The light-like four-vector along the z-axis from
resummator_dipole.ipynb, recorded there as inside. -/
def fvIn : FourVector := ⟨1, 0, 0, 1⟩

/-- The state threaded through the event loop of resummator_lhe.ipynb:
the event counters, the reference event weight, the three batch
accumulators, the shower variable left over from the most recent valid
event, and the warnings printed so far. -/
structure LoopState where
  numberEvents : ℕ
  numberValidEvents : ℕ
  eventWeight : ℝ
  fullResultLL : Hist
  fullNGL1Loop : ℝ
  fullNGL2Loop : ℝ
  lastShower : Option ShowerOut
  warnings : List String

/-- The warning text printed by the event loop of
resummator_lhe.ipynb on a weight mismatch. -/
def weightWarning : String := "Warning: events not of equal weight!"

/-- The reference-weight update of the event loop: the stored weight is
overwritten by the current event weight whenever it is not strictly
positive. -/
def updatedWeight (s : LoopState) (ev : Event) : ℝ :=
  if ¬ s.eventWeight > 0 then ev.weight else s.eventWeight

/-- The warning update of the event loop: after the reference-weight
update, a mismatch between the updated reference weight and the current
event weight prints the warning. -/
def updatedWarnings (s : LoopState) (ev : Event) : List String :=
  if ¬ updatedWeight s ev = ev.weight then s.warnings ++ [weightWarning]
  else s.warnings

/-- One iteration of the event loop of resummator_lhe.ipynb, with the
shower core abstracted as a function sh from the event to its
accumulated shower output: count the event, update the reference
weight, possibly warn, and, exactly when validEvent holds, count the
valid event, run the shower and accumulate its outputs. -/
def loopStep (sh : Event → ShowerOut) (s : LoopState) (ev : Event) : LoopState :=
  if validEvent ev then
    { numberEvents := s.numberEvents + 1
      numberValidEvents := s.numberValidEvents + 1
      eventWeight := updatedWeight s ev
      fullResultLL := histMerge s.fullResultLL (sh ev).resLL
      fullNGL1Loop := s.fullNGL1Loop + (sh ev).ngl1Loop
      fullNGL2Loop := s.fullNGL2Loop + (sh ev).ngl2Loop
      lastShower := some (sh ev)
      warnings := updatedWarnings s ev }
  else
    { s with
      numberEvents := s.numberEvents + 1
      eventWeight := updatedWeight s ev
      warnings := updatedWarnings s ev }

/-- The whole event loop of resummator_lhe.ipynb over a list of events. -/
def runLoop (sh : Event → ShowerOut) (s : LoopState) (evs : List Event) : LoopState :=
  evs.foldl (loopStep sh) s

/-- The sublist of events that pass validEvent, in order. -/
def validList (evs : List Event) : List Event :=
  evs.filter (fun e => decide (validEvent e))

/-- The histogram created before the event loop of
resummator_lhe.ipynb: ngl.Hist(nbins, tmax, errorHistCalc=False) with
nbins = 10 and tmax = 0.1, starting with empty accumulators. -/
def initHist : Hist :=
  { nbins := 10
    tmax := 0.1
    errorHistCalc := false
    bins := List.replicate 10 0
    errs := List.replicate 10 0 }

/-- The loop state set up by the cells before the event loop of
resummator_lhe.ipynb: zero counters, eventWeight = 0, empty
accumulators, no shower yet, no warnings. -/
def initState : LoopState :=
  { numberEvents := 0
    numberValidEvents := 0
    eventWeight := 0
    fullResultLL := initHist
    fullNGL1Loop := 0
    fullNGL2Loop := 0
    lastShower := none
    warnings := [] }

/-- The cell after the event loop of resummator_lhe.ipynb: each batch
accumulator is divided exactly once by the number of valid events; the
histogram division goes through the Hist scaling operation, which
checks the error-tracking flag. -/
def postLoop (s : LoopState) : Except String (Hist × ℝ × ℝ) :=
  match histDiv s.fullResultLL (s.numberValidEvents : ℝ) with
  | Except.error msg => Except.error msg
  | Except.ok h =>
      Except.ok (h, s.fullNGL1Loop / (s.numberValidEvents : ℝ),
        s.fullNGL2Loop / (s.numberValidEvents : ℝ))

/-- Modelled from the spec: the Python builtin round to four decimal
places used by the display cells, as round-half-up on reals (the
displayed concrete values in the claims are away from ties). -/
def round4 (x : ℝ) : ℝ := (Int.floor (x * 10000 + 1 / 2) : ℝ) / 10000

/-- Placeholder shower output for reading the lastShower slot; the
display cells of the lhe notebook run after at least one valid event,
so every displayed lookup in the claims hits a present value. -/
def dfltShowerOut : ShowerOut := ⟨initHist, 0, 0⟩

/-- The display cell round(shower.ngl1Loop, 4) of resummator_lhe.ipynb,
reading the shower variable left over from the loop. -/
def displayedNgl1 (s : LoopState) : ℝ :=
  round4 ((s.lastShower.getD dfltShowerOut).ngl1Loop)

/-- The display cell round(shower.ngl2Loop + 0.5 * shower.ngl1Loop squared, 4)
of resummator_lhe.ipynb, reading the shower variable left over from
the loop. -/
def displayedNgl2Total (s : LoopState) : ℝ :=
  round4 ((s.lastShower.getD dfltShowerOut).ngl2Loop +
    0.5 * ((s.lastShower.getD dfltShowerOut).ngl1Loop) ^ 2)

/-- The resLL histogram entries recorded in the output of
resummator_dipole.ipynb for the end-to-end dipole scenario. -/
def recordedResLL : List ℝ :=
  [0.969936, 0.795605, 0.691085, 0.567803, 0.558733,
    0.318400, 0.334112, 0.256343, 0.140981, 0.126037]

/-- The one-loop coefficient recorded in the output of
resummator_dipole.ipynb for the end-to-end dipole scenario. -/
def recordedNgl1Loop : ℝ := -15.1785

/-- The property claimed of the recorded resLL histogram: each bin
value is at most the previous bin value. -/
def resLLNonIncreasing : Prop :=
  ∀ i : ℕ, i + 1 < recordedResLL.length →
    recordedResLL.getD (i + 1) 0 ≤ recordedResLL.getD i 0

/-- A concrete intermediate-top four-vector used for witness events. -/
def topFV : FourVector := ⟨173, 0, 0, 0⟩

/-- A concrete outgoing-bottom four-vector at azimuth 0, pz = 0. -/
def bOne : FourVector := ⟨50, 50, 0, 0⟩

/-- A concrete outgoing-bottom four-vector at azimuth pi, pz = 0. -/
def bTwo : FourVector := ⟨50, -50, 0, 0⟩

/-- A concrete outgoing-electron four-vector at azimuth pi over two. -/
def elFV : FourVector := ⟨50, 0, 50, 0⟩

/-- A concrete outgoing-muon four-vector at azimuth minus pi over two. -/
def muFV : FourVector := ⟨50, 0, -50, 0⟩

/-- A concrete outgoing electron-neutrino four-vector. -/
def nuE : FourVector := ⟨30, 30, 0, 0⟩

/-- A concrete outgoing muon-neutrino four-vector. -/
def nuM : FourVector := ⟨30, 0, 30, 0⟩

/-- A concrete event that passes every cut of validEvent: two
intermediate tops, two central hard bottoms, one electron and one muon
well separated in azimuth from both bottoms, one neutrino of each
flavor. -/
def evGood : Event :=
  { weight := 1
    intermediateTop := some [topFV, topFV]
    outgoingBottom := some [bOne, bTwo]
    outgoingElectron := some [elFV]
    outgoingENeutrino := some [nuE]
    outgoingMuon := some [muFV]
    outgoingMNeutrino := some [nuM] }

/-- A concrete malformed event: every particle role is absent (in
particular there is no intermediate top), as for an event whose file
record lacks the required content. -/
def evBad : Event :=
  { weight := 1
    intermediateTop := none
    outgoingBottom := none
    outgoingElectron := none
    outgoingENeutrino := none
    outgoingMuon := none
    outgoingMNeutrino := none }

/-- The valid event evGood carrying weight 3 instead of 1. -/
def evB : Event := { evGood with weight := 3 }

/-- The malformed event evBad carrying weight -1. -/
def negEvOne : Event := { evBad with weight := -1 }

/-- The malformed event evBad carrying weight -2. -/
def negEvTwo : Event := { evBad with weight := -2 }

/-- A concrete stand-in for the shower core used in witnesses: it
returns the event weight as both loop coefficients, so different
events produce different shower outputs. -/
def shW : Event → ShowerOut := fun e => ⟨initHist, e.weight, e.weight⟩

/-- A concrete loop state whose reference event weight is already
strictly positive. -/
def stateW : LoopState := { initState with eventWeight := 1 }

/-- A concrete two-bin histogram with error tracking enabled. -/
def histErrW : Hist := ⟨2, 0.1, true, [1, 2], [1, 4]⟩

/-- A concrete two-bin histogram with error tracking disabled. -/
def histOkW : Hist := ⟨2, 0.1, false, [1, 2], [0, 0]⟩

lemma rap_of_pz_zero (v : FourVector) (h : v.pz = 0) (he : v.e ≠ 0) :
    rap v = ((0 : ℝ) : EReal) := by
  unfold rap
  rw [h, sub_zero, add_zero, if_neg he, if_neg he, div_self he, Real.log_one, mul_zero]

lemma absRap_of_rap_zero (v : FourVector) (h : rap v = ((0 : ℝ) : EReal)) :
    absRap v = ((0 : ℝ) : EReal) := by
  unfold absRap
  rw [h, EReal.coe_zero, neg_zero, max_self]

lemma realRap_of_rap_zero (v : FourVector) (h : rap v = ((0 : ℝ) : EReal)) :
    realRap v = 0 := by
  unfold realRap
  rw [h, EReal.toReal_coe]

lemma sqrt_2500 : Real.sqrt 2500 = 50 := by
  rw [show (2500 : ℝ) = 50 ^ 2 by norm_num]
  exact Real.sqrt_sq (by norm_num)

lemma pT_bOne : pT bOne = 50 := by
  show Real.sqrt ((50 : ℝ) ^ 2 + (0 : ℝ) ^ 2) = 50
  rw [show ((50 : ℝ) ^ 2 + (0 : ℝ) ^ 2) = 2500 by norm_num, sqrt_2500]

lemma pT_bTwo : pT bTwo = 50 := by
  show Real.sqrt ((-50 : ℝ) ^ 2 + (0 : ℝ) ^ 2) = 50
  rw [show ((-50 : ℝ) ^ 2 + (0 : ℝ) ^ 2) = 2500 by norm_num, sqrt_2500]

lemma pT_elFV : pT elFV = 50 := by
  show Real.sqrt ((0 : ℝ) ^ 2 + (50 : ℝ) ^ 2) = 50
  rw [show ((0 : ℝ) ^ 2 + (50 : ℝ) ^ 2) = 2500 by norm_num, sqrt_2500]

lemma pT_muFV : pT muFV = 50 := by
  show Real.sqrt ((0 : ℝ) ^ 2 + (-50 : ℝ) ^ 2) = 50
  rw [show ((0 : ℝ) ^ 2 + (-50 : ℝ) ^ 2) = 2500 by norm_num, sqrt_2500]

lemma eT_elFV : eT elFV = 50 := by
  unfold eT
  rw [pT_elFV, show minkowski elFV elFV = 0 by
    show (50 : ℝ) * 50 - (0 : ℝ) * 0 - (50 : ℝ) * 50 - (0 : ℝ) * 0 = 0
    norm_num]
  rw [show ((0 : ℝ) + (50 : ℝ) ^ 2) = 2500 by norm_num, sqrt_2500]

lemma rap_bOne : rap bOne = ((0 : ℝ) : EReal) :=
  rap_of_pz_zero bOne rfl (by show (50 : ℝ) ≠ 0; norm_num)

lemma rap_bTwo : rap bTwo = ((0 : ℝ) : EReal) :=
  rap_of_pz_zero bTwo rfl (by show (50 : ℝ) ≠ 0; norm_num)

lemma rap_elFV : rap elFV = ((0 : ℝ) : EReal) :=
  rap_of_pz_zero elFV rfl (by show (50 : ℝ) ≠ 0; norm_num)

lemma rap_muFV : rap muFV = ((0 : ℝ) : EReal) :=
  rap_of_pz_zero muFV rfl (by show (50 : ℝ) ≠ 0; norm_num)

lemma absRap_le_of_rap_zero (v : FourVector) (c : ℝ)
    (h : rap v = ((0 : ℝ) : EReal)) (hc : 0 ≤ c) :
    absRap v ≤ ((c : ℝ) : EReal) := by
  rw [absRap_of_rap_zero v h]
  exact EReal.coe_le_coe_iff.mpr hc

lemma phi_bOne : phi bOne = 0 := by
  show Complex.arg ⟨(50 : ℝ), (0 : ℝ)⟩ = 0
  exact Complex.arg_eq_zero_iff.mpr ⟨by show (0 : ℝ) ≤ 50; norm_num, rfl⟩

lemma phi_bTwo : phi bTwo = Real.pi := by
  show Complex.arg ⟨(-50 : ℝ), (0 : ℝ)⟩ = Real.pi
  exact Complex.arg_eq_pi_iff.mpr ⟨by show (-50 : ℝ) < 0; norm_num, rfl⟩

lemma phi_elFV : phi elFV = Real.pi / 2 := by
  show Complex.arg ⟨(0 : ℝ), (50 : ℝ)⟩ = Real.pi / 2
  exact Complex.arg_eq_pi_div_two_iff.mpr ⟨rfl, by show (0 : ℝ) < 50; norm_num⟩

lemma phi_muFV : phi muFV = -(Real.pi / 2) := by
  show Complex.arg ⟨(0 : ℝ), (-50 : ℝ)⟩ = -(Real.pi / 2)
  exact Complex.arg_eq_neg_pi_div_two_iff.mpr ⟨rfl, by show (-50 : ℝ) < 0; norm_num⟩

lemma deltaPhi_bOne_elFV : deltaPhi bOne elFV = Real.pi / 2 := by
  unfold deltaPhi
  rw [phi_bOne, phi_elFV]
  have h1 : |(0 : ℝ) - Real.pi / 2| = Real.pi / 2 := by
    rw [zero_sub, abs_neg, abs_of_nonneg (by positivity)]
  rw [h1, if_pos (by linarith [Real.pi_pos])]

lemma deltaPhi_bOne_muFV : deltaPhi bOne muFV = Real.pi / 2 := by
  unfold deltaPhi
  rw [phi_bOne, phi_muFV]
  have h1 : |(0 : ℝ) - -(Real.pi / 2)| = Real.pi / 2 := by
    rw [sub_neg_eq_add, zero_add, abs_of_nonneg (by positivity)]
  rw [h1, if_pos (by linarith [Real.pi_pos])]

lemma deltaPhi_bTwo_elFV : deltaPhi bTwo elFV = Real.pi / 2 := by
  unfold deltaPhi
  rw [phi_bTwo, phi_elFV]
  have h1 : |Real.pi - Real.pi / 2| = Real.pi / 2 := by
    rw [show Real.pi - Real.pi / 2 = Real.pi / 2 by ring,
      abs_of_nonneg (by positivity)]
  rw [h1, if_pos (by linarith [Real.pi_pos])]

lemma deltaPhi_bTwo_muFV : deltaPhi bTwo muFV = Real.pi / 2 := by
  unfold deltaPhi
  rw [phi_bTwo, phi_muFV]
  have h1 : |Real.pi - -(Real.pi / 2)| = 3 * Real.pi / 2 := by
    rw [show Real.pi - -(Real.pi / 2) = 3 * Real.pi / 2 by ring,
      abs_of_nonneg (by positivity)]
  rw [h1, if_neg (by intro h; nlinarith [Real.pi_pos])]
  ring

lemma R2_of_quarter_turn (a b : FourVector)
    (hra : realRap a = 0) (hrb : realRap b = 0)
    (hd : deltaPhi a b = Real.pi / 2) :
    (0.4 : ℝ) ^ 2 ≤ R2 a b := by
  unfold R2
  rw [hra, hrb, hd]
  nlinarith [Real.pi_gt_three]

lemma validEvent_evGood : validEvent evGood := by
  refine ⟨rfl, rfl, Or.inl rfl, rfl, rfl, ?_, ?_, rfl, rfl, ?_, ?_⟩
  · intro i hi
    have hi2 : i = elFV := by simpa [evGood] using hi
    subst hi2
    exact ⟨by rw [eT_elFV]; norm_num,
      absRap_le_of_rap_zero elFV 2.47 rap_elFV (by norm_num)⟩
  · intro i hi
    have hi2 : i = muFV := by simpa [evGood] using hi
    subst hi2
    exact ⟨by rw [pT_muFV]; norm_num,
      absRap_le_of_rap_zero muFV 2.5 rap_muFV (by norm_num)⟩
  · show (130 : ℝ) ≤ pT elFV + pT muFV + pT bOne + pT bTwo
    rw [pT_elFV, pT_muFV, pT_bOne, pT_bTwo]
    norm_num
  · intro i hi
    have hi2 : i = bOne ∨ i = bTwo := by simpa [evGood] using hi
    have hlep : ∀ j, j ∈ momentaLeptonsOut evGood → j = elFV ∨ j = muFV := by
      intro j hj
      simpa [momentaLeptonsOut, evGood] using hj
    rcases hi2 with h | h <;> subst h
    · refine ⟨by rw [pT_bOne]; norm_num,
        absRap_le_of_rap_zero bOne 2.4 rap_bOne (by norm_num), ?_⟩
      intro j hj
      rcases hlep j hj with h | h <;> subst h
      · exact R2_of_quarter_turn bOne elFV (realRap_of_rap_zero bOne rap_bOne)
          (realRap_of_rap_zero elFV rap_elFV) deltaPhi_bOne_elFV
      · exact R2_of_quarter_turn bOne muFV (realRap_of_rap_zero bOne rap_bOne)
          (realRap_of_rap_zero muFV rap_muFV) deltaPhi_bOne_muFV
    · refine ⟨by rw [pT_bTwo]; norm_num,
        absRap_le_of_rap_zero bTwo 2.4 rap_bTwo (by norm_num), ?_⟩
      intro j hj
      rcases hlep j hj with h | h <;> subst h
      · exact R2_of_quarter_turn bTwo elFV (realRap_of_rap_zero bTwo rap_bTwo)
          (realRap_of_rap_zero elFV rap_elFV) deltaPhi_bTwo_elFV
      · exact R2_of_quarter_turn bTwo muFV (realRap_of_rap_zero bTwo rap_bTwo)
          (realRap_of_rap_zero muFV rap_muFV) deltaPhi_bTwo_muFV

lemma validEvent_weight_update (ev : Event) (w : ℝ) :
    validEvent { ev with weight := w } ↔ validEvent ev := Iff.rfl

lemma validEvent_evB : validEvent evB :=
  (validEvent_weight_update evGood 3).mpr validEvent_evGood

lemma not_validEvent_evBad : ¬ validEvent evBad := by
  intro h
  exact absurd h.1 (by simp [evBad])

lemma not_validEvent_negEvOne : ¬ validEvent negEvOne := by
  intro h
  exact not_validEvent_evBad ((validEvent_weight_update evBad (-1)).mp h)

lemma not_validEvent_negEvTwo : ¬ validEvent negEvTwo := by
  intro h
  exact not_validEvent_evBad ((validEvent_weight_update evBad (-2)).mp h)

lemma loopStep_of_valid (sh : Event → ShowerOut) (s : LoopState) (ev : Event)
    (h : validEvent ev) :
    loopStep sh s ev =
      { numberEvents := s.numberEvents + 1
        numberValidEvents := s.numberValidEvents + 1
        eventWeight := updatedWeight s ev
        fullResultLL := histMerge s.fullResultLL (sh ev).resLL
        fullNGL1Loop := s.fullNGL1Loop + (sh ev).ngl1Loop
        fullNGL2Loop := s.fullNGL2Loop + (sh ev).ngl2Loop
        lastShower := some (sh ev)
        warnings := updatedWarnings s ev } := by
  unfold loopStep
  rw [if_pos h]

lemma loopStep_of_invalid (sh : Event → ShowerOut) (s : LoopState) (ev : Event)
    (h : ¬ validEvent ev) :
    loopStep sh s ev =
      { s with
        numberEvents := s.numberEvents + 1
        eventWeight := updatedWeight s ev
        warnings := updatedWarnings s ev } := by
  unfold loopStep
  rw [if_neg h]

lemma loopStep_numberEvents (sh : Event → ShowerOut) (s : LoopState) (ev : Event) :
    (loopStep sh s ev).numberEvents = s.numberEvents + 1 := by
  by_cases h : validEvent ev
  · rw [loopStep_of_valid sh s ev h]
  · rw [loopStep_of_invalid sh s ev h]

lemma loopStep_eventWeight (sh : Event → ShowerOut) (s : LoopState) (ev : Event) :
    (loopStep sh s ev).eventWeight = updatedWeight s ev := by
  by_cases h : validEvent ev
  · rw [loopStep_of_valid sh s ev h]
  · rw [loopStep_of_invalid sh s ev h]

lemma loopStep_warnings (sh : Event → ShowerOut) (s : LoopState) (ev : Event) :
    (loopStep sh s ev).warnings = updatedWarnings s ev := by
  by_cases h : validEvent ev
  · rw [loopStep_of_valid sh s ev h]
  · rw [loopStep_of_invalid sh s ev h]

lemma loopStep_errFlag (sh : Event → ShowerOut) (s : LoopState) (ev : Event) :
    (loopStep sh s ev).fullResultLL.errorHistCalc =
      s.fullResultLL.errorHistCalc := by
  by_cases h : validEvent ev
  · rw [loopStep_of_valid sh s ev h]
    rfl
  · rw [loopStep_of_invalid sh s ev h]

lemma runLoop_nil (sh : Event → ShowerOut) (s : LoopState) :
    runLoop sh s [] = s := rfl

lemma runLoop_cons (sh : Event → ShowerOut) (s : LoopState) (ev : Event)
    (evs : List Event) :
    runLoop sh s (ev :: evs) = runLoop sh (loopStep sh s ev) evs := rfl

lemma runLoop_append (sh : Event → ShowerOut) (s : LoopState)
    (xs ys : List Event) :
    runLoop sh s (xs ++ ys) = runLoop sh (runLoop sh s xs) ys :=
  List.foldl_append _ _ _ _

lemma validList_nil : validList [] = [] := rfl

lemma validList_cons_valid (ev : Event) (evs : List Event) (h : validEvent ev) :
    validList (ev :: evs) = ev :: validList evs := by
  unfold validList
  rw [List.filter_cons, if_pos (by simpa using h)]

lemma validList_cons_invalid (ev : Event) (evs : List Event)
    (h : ¬ validEvent ev) :
    validList (ev :: evs) = validList evs := by
  unfold validList
  rw [List.filter_cons, if_neg (by simpa using h)]

lemma runLoop_fullNGL1 (sh : Event → ShowerOut) :
    ∀ (evs : List Event) (s : LoopState),
      (runLoop sh s evs).fullNGL1Loop =
        s.fullNGL1Loop + ((validList evs).map (fun e => (sh e).ngl1Loop)).sum := by
  intro evs
  induction evs with
  | nil => intro s; rw [runLoop_nil, validList_nil]; simp
  | cons ev evs ih =>
      intro s
      rw [runLoop_cons, ih]
      by_cases h : validEvent ev
      · rw [validList_cons_valid ev evs h, loopStep_of_valid sh s ev h]
        simp [add_assoc]
      · rw [validList_cons_invalid ev evs h, loopStep_of_invalid sh s ev h]

lemma runLoop_fullNGL2 (sh : Event → ShowerOut) :
    ∀ (evs : List Event) (s : LoopState),
      (runLoop sh s evs).fullNGL2Loop =
        s.fullNGL2Loop + ((validList evs).map (fun e => (sh e).ngl2Loop)).sum := by
  intro evs
  induction evs with
  | nil => intro s; rw [runLoop_nil, validList_nil]; simp
  | cons ev evs ih =>
      intro s
      rw [runLoop_cons, ih]
      by_cases h : validEvent ev
      · rw [validList_cons_valid ev evs h, loopStep_of_valid sh s ev h]
        simp [add_assoc]
      · rw [validList_cons_invalid ev evs h, loopStep_of_invalid sh s ev h]

lemma runLoop_numberValidEvents (sh : Event → ShowerOut) :
    ∀ (evs : List Event) (s : LoopState),
      (runLoop sh s evs).numberValidEvents =
        s.numberValidEvents + (validList evs).length := by
  intro evs
  induction evs with
  | nil => intro s; rw [runLoop_nil, validList_nil]; simp
  | cons ev evs ih =>
      intro s
      rw [runLoop_cons, ih]
      by_cases h : validEvent ev
      · rw [validList_cons_valid ev evs h, loopStep_of_valid sh s ev h]
        simp
        omega
      · rw [validList_cons_invalid ev evs h, loopStep_of_invalid sh s ev h]

lemma runLoop_numberEvents (sh : Event → ShowerOut) :
    ∀ (evs : List Event) (s : LoopState),
      (runLoop sh s evs).numberEvents = s.numberEvents + evs.length := by
  intro evs
  induction evs with
  | nil => intro s; rw [runLoop_nil]; simp
  | cons ev evs ih =>
      intro s
      rw [runLoop_cons, ih, loopStep_numberEvents]
      simp
      omega

lemma runLoop_errFlag (sh : Event → ShowerOut) :
    ∀ (evs : List Event) (s : LoopState),
      (runLoop sh s evs).fullResultLL.errorHistCalc =
        s.fullResultLL.errorHistCalc := by
  intro evs
  induction evs with
  | nil => intro s; rw [runLoop_nil]
  | cons ev evs ih =>
      intro s
      rw [runLoop_cons, ih, loopStep_errFlag]

lemma rap_fvOut : rap fvOut = ((0 : ℝ) : EReal) :=
  rap_of_pz_zero fvOut rfl (by show (1 : ℝ) ≠ 0; norm_num)

lemma outsideDipole_fvOut : outsideDipole fvOut := by
  constructor
  · rw [absRap_of_rap_zero fvOut rap_fvOut]
    exact EReal.coe_lt_coe_iff.mpr (by norm_num)
  · rw [absRap_of_rap_zero fvOut rap_fvOut]
    exact EReal.coe_le_coe_iff.mpr (by norm_num)

lemma rap_fvIn : rap fvIn = ⊤ := by
  unfold rap
  rw [if_pos (show fvIn.e - fvIn.pz = 0 by show (1 : ℝ) - 1 = 0; norm_num)]

lemma absRap_fvIn : absRap fvIn = ⊤ := by
  unfold absRap
  rw [rap_fvIn, EReal.neg_top]
  exact max_eq_left bot_le

lemma not_outsideDipole_fvIn : ¬ outsideDipole fvIn := by
  rintro ⟨h1, h2⟩
  rw [absRap_fvIn] at h1
  exact absurd h1 (not_lt.mpr le_top)

lemma round4_three : round4 3 = 3 := by
  unfold round4
  rw [show ((3 : ℝ) * 10000 + 1 / 2) = 30000.5 by norm_num]
  have h : Int.floor ((30000.5 : ℝ)) = 30000 := by
    apply Int.floor_eq_iff.mpr
    constructor <;> norm_num
  rw [h]
  norm_num

/-- C8: the dipole notebook's injected outside predicate holds of a
four-vector exactly when its absolute rapidity lies in the half-open
band from 0 up to 0.8; the recorded light-like probe along the y-axis
is outside (True) and the recorded light-like probe along the z-axis,
whose rapidity is infinite, is inside (False). -/
theorem outsideDipole_spec :
    (∀ v : FourVector,
      outsideDipole v ↔
        (((0.0 : ℝ) : EReal) ≤ absRap v ∧ absRap v < ((0.8 : ℝ) : EReal)))
    ∧ outsideDipole fvOut ∧ ¬ outsideDipole fvIn :=
  ⟨fun _ => and_comm, outsideDipole_fvOut, not_outsideDipole_fvIn⟩

/-- C2, counterexample: the recorded resLL histogram of the dipole
notebook end-to-end run is not monotonically non-increasing bin by bin,
so the claim as stated fails on the recorded output; the failing pair
is bin 5 (value 0.318400) followed by bin 6 (value 0.334112). -/
theorem recordedResLL_not_monotone :
    ¬ (resLLNonIncreasing ∧ recordedNgl1Loop < 0) := by
  rintro ⟨hm, _⟩
  have h := hm 5 (by simp [recordedResLL])
  simp only [recordedResLL, List.getD_cons_succ, List.getD_cons_zero] at h
  norm_num at h

/-- C2, amended: on the recorded end-to-end run, every adjacent bin
pair of resLL is non-increasing except the single Monte-Carlo
fluctuation from bin 5 to bin 6, and the recorded one-loop coefficient
is negative. -/
theorem recordedResLL_amended (i : ℕ) (h1 : i + 1 < recordedResLL.length)
    (h2 : i ≠ 5) :
    recordedResLL.getD (i + 1) 0 ≤ recordedResLL.getD i 0
    ∧ recordedNgl1Loop < 0 := by
  constructor
  · have h3 : i < 9 := by
      simp only [recordedResLL, List.length_cons, List.length_nil] at h1
      omega
    interval_cases i <;>
      simp only [recordedResLL, List.getD_cons_succ, List.getD_cons_zero] <;>
      first
        | (exact absurd rfl h2)
        | norm_num
  · show (-15.1785 : ℝ) < 0
    norm_num

/-- C2, witness for the amended statement at the first bin pair. -/
theorem recordedResLL_amended_witness :
    recordedResLL.getD 1 0 ≤ recordedResLL.getD 0 0
    ∧ recordedNgl1Loop < 0 :=
  recordedResLL_amended 0 (by simp [recordedResLL]) (by norm_num)

/-- C4: dividing a histogram by a scalar through the Hist scaling
operation is rejected with a configuration error exactly when error
tracking is enabled; with error tracking disabled it succeeds and
divides every bin value by the scalar. -/
theorem histDiv_config (h : Hist) (n : ℝ) :
    (h.errorHistCalc = true →
      histDiv h n =
        Except.error "Hist: scaling is forbidden on an error-tracking histogram")
    ∧ (h.errorHistCalc = false →
      ∃ h2 : Hist,
        histDiv h n = Except.ok h2
        ∧ h2.bins.length = h.bins.length
        ∧ ∀ i : ℕ, h2.bins.getD i 0 = h.bins.getD i 0 / n) := by
  constructor
  · intro hh
    unfold histDiv
    rw [hh]
    simp
  · intro hh
    refine ⟨{ h with bins := h.bins.map (fun x => x / n) }, ?_, by simp, ?_⟩
    · unfold histDiv
      rw [hh]
      simp
    · intro i
      by_cases hi : i < h.bins.length
      · rw [List.getD_eq_getElem _ _ (by simpa using hi),
          List.getD_eq_getElem _ _ hi, List.getElem_map]
      · push_neg at hi
        rw [List.getD_eq_default _ _ (by simpa using hi),
          List.getD_eq_default _ _ hi, zero_div]

/-- C4, witness: the error-tracking histogram is rejected and the
non-error histogram with bins 1 and 2 is divided by 2 bin by bin. -/
theorem histDiv_config_witness :
    histDiv histErrW 3 =
      Except.error "Hist: scaling is forbidden on an error-tracking histogram"
    ∧ ∃ h2 : Hist,
        histDiv histOkW 2 = Except.ok h2
        ∧ h2.bins.getD 0 0 = 1 / 2 ∧ h2.bins.getD 1 0 = 1 := by
  constructor
  · exact (histDiv_config histErrW 3).1 rfl
  · obtain ⟨h2, he, hlen, hv⟩ := (histDiv_config histOkW 2).2 rfl
    refine ⟨h2, he, ?_, ?_⟩
    · rw [hv 0]
      norm_num [histOkW]
    · rw [hv 1]
      norm_num [histOkW]

/-- C6: invoking the outside slot of an OutsideRegion that was never
configured signals the not-configured error rather than returning a
boolean; once the caller binds a concrete predicate, invoking returns
exactly that predicate's value on every queried four-vector, as the
dipole notebook does with its rapidity-band predicate. -/
theorem outsideRegion_contract :
    (∀ v : FourVector,
      OutsideRegion.invoke { outside := none } v =
        Except.error "OutsideRegion: outside not configured")
    ∧ (∀ (f : FourVector → Prop) (v : FourVector),
      OutsideRegion.invoke { outside := some f } v = Except.ok (f v))
    ∧ OutsideRegion.invoke { outside := some outsideDipole } fvOut =
        Except.ok (outsideDipole fvOut)
    ∧ outsideDipole fvOut :=
  ⟨fun _ => rfl, fun _ _ => rfl, rfl, outsideDipole_fvOut⟩

lemma loopStep_weight_overwrite (sh : Event → ShowerOut) (s : LoopState)
    (ev : Event) (h : ¬ s.eventWeight > 0) :
    (loopStep sh s ev).eventWeight = ev.weight
    ∧ (loopStep sh s ev).warnings = s.warnings := by
  have huw : updatedWeight s ev = ev.weight := by
    unfold updatedWeight
    rw [if_pos h]
  have huws : updatedWarnings s ev = s.warnings := by
    unfold updatedWarnings
    rw [huw, if_neg (not_not_intro rfl)]
  rw [loopStep_eventWeight, loopStep_warnings, huw, huws]
  exact ⟨rfl, rfl⟩

lemma runLoop_nonpos_warnings (sh : Event → ShowerOut) :
    ∀ (evs : List Event) (s : LoopState), ¬ s.eventWeight > 0 →
      (∀ ev ∈ evs, ev.weight ≤ 0) →
      (runLoop sh s evs).warnings = s.warnings := by
  intro evs
  induction evs with
  | nil => intro s _ _; rw [runLoop_nil]
  | cons ev evs ih =>
      intro s hs hall
      rw [runLoop_cons]
      have hstep := loopStep_weight_overwrite sh s ev hs
      have hnext : ¬ (loopStep sh s ev).eventWeight > 0 := by
        rw [hstep.1]
        exact not_lt.mpr (hall ev (List.mem_cons_self ev evs))
      rw [ih (loopStep sh s ev) hnext
        (fun e he => hall e (List.mem_cons_of_mem ev he)), hstep.2]

/-- C1, counterexample: an event with every required particle role
absent is not rejected by raising a construction error; the driver loop
processes it to completion, validEvent merely returns False, the event
is skipped, and the loop continues with the following event, which is
still showered. -/
theorem malformedEvent_no_error_raised :
    ¬ validEvent evBad
    ∧ (runLoop shW initState [evBad, evGood]).numberEvents = 2
    ∧ (runLoop shW initState [evBad, evGood]).numberValidEvents = 1
    ∧ (runLoop shW initState [evBad, evGood]).lastShower = some (shW evGood) := by
  refine ⟨not_validEvent_evBad, ?_, ?_, ?_⟩
  · rw [runLoop_numberEvents]
    rfl
  · rw [runLoop_numberValidEvents, validList_cons_invalid _ _ not_validEvent_evBad,
      validList_cons_valid _ _ validEvent_evGood, validList_nil]
    rfl
  · show (loopStep shW (loopStep shW initState evBad) evGood).lastShower =
      some (shW evGood)
    rw [loopStep_of_valid _ _ _ validEvent_evGood]

/-- C1, amended: a malformed event (one failing validEvent, for
example with required roles absent or with wrong multiplicities) is
never handed to the shower and contributes nothing to the accumulators;
no error is raised: the loop iteration completes, counts the event and
moves on. -/
theorem malformedEvent_skipped_not_showered (sh : Event → ShowerOut)
    (s : LoopState) (ev : Event) (h : ¬ validEvent ev) :
    (loopStep sh s ev).lastShower = s.lastShower
    ∧ (loopStep sh s ev).numberValidEvents = s.numberValidEvents
    ∧ (loopStep sh s ev).fullResultLL = s.fullResultLL
    ∧ (loopStep sh s ev).fullNGL1Loop = s.fullNGL1Loop
    ∧ (loopStep sh s ev).fullNGL2Loop = s.fullNGL2Loop
    ∧ (loopStep sh s ev).numberEvents = s.numberEvents + 1 := by
  refine ⟨?_, ?_, ?_, ?_, ?_, ?_⟩ <;> rw [loopStep_of_invalid sh s ev h]

/-- C1, witness: the amended statement evaluated on the concrete
malformed event evBad from the initial loop state. -/
theorem malformedEvent_skipped_witness :
    (loopStep shW initState evBad).lastShower = none
    ∧ (loopStep shW initState evBad).numberValidEvents = 0
    ∧ (loopStep shW initState evBad).numberEvents = 1 := by
  have h := malformedEvent_skipped_not_showered shW initState evBad
    not_validEvent_evBad
  exact ⟨h.1, h.2.1, h.2.2.2.2.2⟩

/-- C5: when the stored reference weight is strictly positive and the
current event weight differs from it, the loop iteration prints the
unequal-weight warning and nothing else changes about its processing:
the event is counted, it is showered and accumulated exactly when
validEvent holds, and it is skipped otherwise; the iteration never
aborts. -/
theorem weight_mismatch_warns_continues (sh : Event → ShowerOut)
    (s : LoopState) (ev : Event) (hw : s.eventWeight > 0)
    (hne : ev.weight ≠ s.eventWeight) :
    (loopStep sh s ev).warnings = s.warnings ++ [weightWarning]
    ∧ (loopStep sh s ev).numberEvents = s.numberEvents + 1
    ∧ (validEvent ev →
        (loopStep sh s ev).lastShower = some (sh ev)
        ∧ (loopStep sh s ev).numberValidEvents = s.numberValidEvents + 1
        ∧ (loopStep sh s ev).fullNGL1Loop = s.fullNGL1Loop + (sh ev).ngl1Loop
        ∧ (loopStep sh s ev).fullNGL2Loop = s.fullNGL2Loop + (sh ev).ngl2Loop)
    ∧ (¬ validEvent ev →
        (loopStep sh s ev).lastShower = s.lastShower
        ∧ (loopStep sh s ev).numberValidEvents = s.numberValidEvents) := by
  have huw : updatedWeight s ev = s.eventWeight := by
    unfold updatedWeight
    rw [if_neg (not_not_intro hw)]
  have huws : updatedWarnings s ev = s.warnings ++ [weightWarning] := by
    unfold updatedWarnings
    rw [huw, if_pos (fun hEq => hne hEq.symm)]
  refine ⟨by rw [loopStep_warnings, huws], loopStep_numberEvents sh s ev, ?_, ?_⟩
  · intro h
    rw [loopStep_of_valid sh s ev h]
    exact ⟨rfl, rfl, rfl, rfl⟩
  · intro h
    rw [loopStep_of_invalid sh s ev h]
    exact ⟨rfl, rfl⟩

/-- C5, witness: the mismatching valid event evB (weight 3) against a
stored reference weight 1 triggers the warning yet is still showered
and counted. -/
theorem weight_mismatch_witness :
    (loopStep shW stateW evB).warnings = [weightWarning]
    ∧ (loopStep shW stateW evB).lastShower = some (shW evB)
    ∧ (loopStep shW stateW evB).numberValidEvents = 1 := by
  have h := weight_mismatch_warns_continues shW stateW evB
    (show (1 : ℝ) > 0 by norm_num) (show (3 : ℝ) ≠ 1 by norm_num)
  have h3 := h.2.2.1 validEvent_evB
  exact ⟨h.1, h3.1, h3.2.1⟩

/-- C7: a loop iteration showers the event and accumulates the shower
outputs exactly when validEvent holds; and validEvent can hold only
when the event has exactly two intermediate tops, exactly two outgoing
bottoms, exactly two collected outgoing charged leptons and exactly two
collected outgoing neutrinos, with every outgoing bottom having
transverse momentum at least 25, absolute rapidity at most 2.4 and
squared angular separation at least 0.4 squared from every collected
charged lepton. -/
theorem shower_gate_validEvent (sh : Event → ShowerOut) (s : LoopState)
    (ev : Event) :
    (validEvent ev →
      (loopStep sh s ev).lastShower = some (sh ev)
      ∧ (loopStep sh s ev).numberValidEvents = s.numberValidEvents + 1
      ∧ (loopStep sh s ev).fullNGL1Loop = s.fullNGL1Loop + (sh ev).ngl1Loop
      ∧ (loopStep sh s ev).fullNGL2Loop = s.fullNGL2Loop + (sh ev).ngl2Loop
      ∧ (loopStep sh s ev).fullResultLL = histMerge s.fullResultLL (sh ev).resLL)
    ∧ (¬ validEvent ev →
      (loopStep sh s ev).lastShower = s.lastShower
      ∧ (loopStep sh s ev).numberValidEvents = s.numberValidEvents
      ∧ (loopStep sh s ev).fullNGL1Loop = s.fullNGL1Loop
      ∧ (loopStep sh s ev).fullResultLL = s.fullResultLL)
    ∧ (validEvent ev →
      ev.intermediateTop.isSome = true
      ∧ (ev.intermediateTop.getD []).length = 2
      ∧ ev.outgoingBottom.isSome = true
      ∧ (ev.outgoingBottom.getD []).length = 2
      ∧ (momentaLeptonsOut ev).length = 2
      ∧ (momentaNeutrinoOut ev).length = 2
      ∧ ∀ b ∈ ev.outgoingBottom.getD [],
          25 ≤ pT b ∧ absRap b ≤ ((2.4 : ℝ) : EReal) ∧
            ∀ l ∈ momentaLeptonsOut ev, (0.4 : ℝ) ^ 2 ≤ R2 b l) := by
  refine ⟨?_, ?_, ?_⟩
  · intro h
    rw [loopStep_of_valid sh s ev h]
    exact ⟨rfl, rfl, rfl, rfl, rfl⟩
  · intro h
    rw [loopStep_of_invalid sh s ev h]
    exact ⟨rfl, rfl, rfl, rfl⟩
  · intro h
    obtain ⟨h1, h2, h3, h4, h5, h6, h7, h8, h9, h10, h11⟩ := h
    exact ⟨h1, h4, h2, h5, h8, h9, h11⟩

/-- C7, witness: the concrete valid event evGood is showered by the
iteration and satisfies the stated multiplicities. -/
theorem shower_gate_witness :
    validEvent evGood
    ∧ (loopStep shW initState evGood).lastShower = some (shW evGood)
    ∧ (momentaLeptonsOut evGood).length = 2
    ∧ (momentaNeutrinoOut evGood).length = 2 := by
  have h := shower_gate_validEvent shW initState evGood
  have h3 := h.2.2 validEvent_evGood
  exact ⟨validEvent_evGood, (h.1 validEvent_evGood).1, h3.2.2.2.2.1,
    h3.2.2.2.2.2.1⟩

/-- C9: the reference weight is overwritten with the current event
weight whenever the stored one is not strictly positive, and only then
compared, so such an iteration can never warn; consequently a batch of
events whose weights are all non-positive never triggers the
unequal-weight warning, even when the weights differ from one
another. -/
theorem nonpositive_weights_no_warning :
    (∀ (sh : Event → ShowerOut) (s : LoopState) (ev : Event),
      ¬ s.eventWeight > 0 →
        (loopStep sh s ev).eventWeight = ev.weight
        ∧ (loopStep sh s ev).warnings = s.warnings)
    ∧ (∀ (sh : Event → ShowerOut) (evs : List Event) (s : LoopState),
      ¬ s.eventWeight > 0 → (∀ ev ∈ evs, ev.weight ≤ 0) →
        (runLoop sh s evs).warnings = s.warnings) :=
  ⟨fun sh s ev h => loopStep_weight_overwrite sh s ev h,
    fun sh evs s hs hall => runLoop_nonpos_warnings sh evs s hs hall⟩

/-- C9, witness: a batch of two malformed events with the distinct
non-positive weights -1 and -2 produces no warning at all. -/
theorem nonpositive_weights_witness :
    (loopStep shW initState negEvOne).eventWeight = negEvOne.weight
    ∧ (runLoop shW initState [negEvOne, negEvTwo]).warnings = [] := by
  refine ⟨(nonpositive_weights_no_warning.1 shW initState negEvOne
    (show ¬ (0 : ℝ) > 0 by norm_num)).1, ?_⟩
  have h2 := nonpositive_weights_no_warning.2 shW [negEvOne, negEvTwo] initState
    (show ¬ (0 : ℝ) > 0 by norm_num) ?_
  · exact h2
  · intro ev hev
    have hev2 : ev = negEvOne ∨ ev = negEvTwo := by simpa using hev
    rcases hev2 with h | h <;> subst h
    · show (-1 : ℝ) ≤ 0
      norm_num
    · show (-2 : ℝ) ≤ 0
      norm_num

/-- C3: after the event loop the scalar accumulators hold the raw sums
of the per-event shower outputs over the valid events, the valid-event
counter holds their number, and the post-loop cell divides each
accumulator exactly once by that count (the histogram through the Hist
scaling operation, which succeeds because the batch histogram does not
track errors); and the modelled shower core itself accumulates its nsh
realizations as raw sums with no averaging. -/
theorem accumulate_then_divide (sh : Event → ShowerOut) (evs : List Event) :
    (runLoop sh initState evs).fullNGL1Loop =
      ((validList evs).map (fun e => (sh e).ngl1Loop)).sum
    ∧ (runLoop sh initState evs).fullNGL2Loop =
      ((validList evs).map (fun e => (sh e).ngl2Loop)).sum
    ∧ (runLoop sh initState evs).numberValidEvents = (validList evs).length
    ∧ (∃ h2 : Hist,
        postLoop (runLoop sh initState evs) =
          Except.ok (h2,
            (runLoop sh initState evs).fullNGL1Loop /
              ((runLoop sh initState evs).numberValidEvents : ℝ),
            (runLoop sh initState evs).fullNGL2Loop /
              ((runLoop sh initState evs).numberValidEvents : ℝ))
        ∧ h2.bins = (runLoop sh initState evs).fullResultLL.bins.map
            (fun x => x / ((runLoop sh initState evs).numberValidEvents : ℝ)))
    ∧ (∀ (nb : ℕ) (tm : ℝ) (rs : List ShowerRealization),
        (showerAccumOut nb tm rs).ngl1Loop = (rs.map ShowerRealization.c1).sum
        ∧ (showerAccumOut nb tm rs).ngl2Loop = (rs.map ShowerRealization.c2).sum) := by
  refine ⟨?_, ?_, ?_, ?_, fun nb tm rs => ⟨rfl, rfl⟩⟩
  · rw [runLoop_fullNGL1]
    show (0 : ℝ) + _ = _
    rw [zero_add]
  · rw [runLoop_fullNGL2]
    show (0 : ℝ) + _ = _
    rw [zero_add]
  · rw [runLoop_numberValidEvents]
    show 0 + _ = _
    rw [Nat.zero_add]
  · have hflag : (runLoop sh initState evs).fullResultLL.errorHistCalc = false := by
      rw [runLoop_errFlag]
      rfl
    refine ⟨{ (runLoop sh initState evs).fullResultLL with
      bins := (runLoop sh initState evs).fullResultLL.bins.map
        (fun x => x / ((runLoop sh initState evs).numberValidEvents : ℝ)) },
      ?_, rfl⟩
    unfold postLoop histDiv
    rw [hflag]
    simp [hflag]

/-- C10: the shower variable read by the display cells is the one left
over from the last valid event of the batch, so the displayed one-loop
and combined two-loop numbers are computed from that single event's
accumulated shower and not from the batch accumulators; on a concrete
two-event batch the displayed one-loop value is 3 while the batch
average is 2. -/
theorem displayed_from_last_shower :
    (∀ (sh : Event → ShowerOut) (s : LoopState) (xs : List Event) (ev : Event),
      validEvent ev →
        (runLoop sh s (xs ++ [ev])).lastShower = some (sh ev)
        ∧ displayedNgl1 (runLoop sh s (xs ++ [ev])) = round4 ((sh ev).ngl1Loop)
        ∧ displayedNgl2Total (runLoop sh s (xs ++ [ev])) =
            round4 ((sh ev).ngl2Loop + 0.5 * ((sh ev).ngl1Loop) ^ 2))
    ∧ displayedNgl1 (runLoop shW initState [evGood, evB]) = 3
    ∧ (runLoop shW initState [evGood, evB]).fullNGL1Loop /
        ((runLoop shW initState [evGood, evB]).numberValidEvents : ℝ) = 2
    ∧ (3 : ℝ) ≠ 2 := by
  have hlast : ∀ (sh : Event → ShowerOut) (s : LoopState) (xs : List Event)
      (ev : Event), validEvent ev →
      (runLoop sh s (xs ++ [ev])).lastShower = some (sh ev) := by
    intro sh s xs ev h
    rw [runLoop_append]
    show (loopStep sh (runLoop sh s xs) ev).lastShower = some (sh ev)
    rw [loopStep_of_valid _ _ _ h]
  have hcl : (runLoop shW initState [evGood, evB]).lastShower = some (shW evB) :=
    hlast shW initState [evGood] evB validEvent_evB
  refine ⟨?_, ?_, ?_, by norm_num⟩
  · intro sh s xs ev h
    refine ⟨hlast sh s xs ev h, ?_, ?_⟩
    · unfold displayedNgl1
      rw [hlast sh s xs ev h]
      rfl
    · unfold displayedNgl2Total
      rw [hlast sh s xs ev h]
      rfl
  · unfold displayedNgl1
    rw [hcl]
    show round4 evB.weight = 3
    show round4 3 = 3
    exact round4_three
  · have h1 : (runLoop shW initState [evGood, evB]).fullNGL1Loop = 4 := by
      rw [runLoop_fullNGL1, validList_cons_valid _ _ validEvent_evGood,
        validList_cons_valid _ _ validEvent_evB, validList_nil]
      show (0 : ℝ) + ((1 : ℝ) + ((3 : ℝ) + 0)) = 4
      norm_num
    have h2 : (runLoop shW initState [evGood, evB]).numberValidEvents = 2 := by
      rw [runLoop_numberValidEvents, validList_cons_valid _ _ validEvent_evGood,
        validList_cons_valid _ _ validEvent_evB, validList_nil]
      rfl
    rw [h1, h2]
    norm_num

/-- C10, witness: the general part of the statement evaluated on a
concrete batch ending with the valid event evGood. -/
theorem displayed_witness :
    validEvent evGood
    ∧ (runLoop shW initState ([evBad] ++ [evGood])).lastShower =
        some (shW evGood) :=
  ⟨validEvent_evGood,
    (displayed_from_last_shower.1 shW initState [evBad] evGood
      validEvent_evGood).1⟩

end NglResum
